import Mathlib

/-!
Verification development for the `bibtex` Go package (hildensia/bibtex,
file `bibtex.go`).  The Go code is shallowly embedded: the `BibString`
interface with its three implementations (`BibConst`, `BibVar`,
`BibComposite`) becomes a closed inductive type, the Go maps
(`map[string]BibString`, `map[string]*BibVar`) become association lists
with unique keys, and the unspecified iteration order of a Go `range`
loop over a map is modelled by quantifying over permutations of the
association list.  `log.Fatalf` (process termination) is modelled as the
`none` branch of an `Option` result.  `bytes.Buffer.Truncate(len-2)`
removes the final two bytes; at every call site those two bytes are the
ASCII characters ',' and '\n', so dropping two characters is faithful.
-/

namespace Bibtex

/-- Model of Go `unicode.IsSpace` (the set used by `strings.TrimSpace`):
ASCII whitespace plus the Unicode White_Space code points. -/
def goIsSpace (c : Char) : Bool :=
  c == ' ' || c == '\t' || c == '\n' || c == '\x0b' || c == '\x0c' || c == '\r' ||
  c.val == 0x85 || c.val == 0xA0 || c.val == 0x1680 ||
  (0x2000 ≤ c.val && c.val ≤ 0x200a) ||
  c.val == 0x2028 || c.val == 0x2029 || c.val == 0x202f ||
  c.val == 0x205f || c.val == 0x3000

/-- Model of Go `strings.TrimSpace`: drop leading and trailing
whitespace characters. -/
def goTrimSpace (s : String) : String :=
  String.mk (((s.data.dropWhile goIsSpace).reverse.dropWhile goIsSpace).reverse)

/-- Digit accumulator for `atoi`: `none` on any non-digit. -/
def digitsVal : List Char → Nat → Option Nat
  | [], acc => some acc
  | c :: cs, acc =>
    if c.isDigit then digitsVal cs (acc * 10 + (c.toNat - '0'.toNat)) else none

/-- Model of Go `strconv.Atoi` (= `ParseInt(s, 10, 0)` with 64-bit `int`):
optional single leading sign, then a nonempty run of decimal digits;
errors (empty string, stray characters, out of `int64` range) are `none`. -/
def atoi (s : String) : Option Int :=
  let p : Bool × List Char :=
    match s.data with
    | '+' :: rest => (false, rest)
    | '-' :: rest => (true, rest)
    | l => (false, l)
  match p.2 with
  | [] => none
  | ds =>
    match digitsVal ds 0 with
    | none => none
    | some n =>
      if p.1 then
        if n ≤ 2 ^ 63 then some (-(n : Int)) else none
      else
        if n ≤ 2 ^ 63 - 1 then some (n : Int) else none

/-- The `BibString` interface of `bibtex.go`, closed over the dynamic
types that satisfy it inside the package.  `BibConst`'s methods have
value receivers, so BOTH the value type `BibConst` (what `NewBibConst`
returns) and the pointer type `*BibConst` satisfy the interface, while
`BibVar` and `BibComposite` have pointer-receiver methods, so only
`*BibVar` and `*BibComposite` do.  The value/pointer distinction for
constants is observable: the type switch in `BibComposite.RawString`
matches `*BibConst`, `*BibVar` and `*BibComposite` only, and writes
nothing for a value-typed `BibConst`.  A Go `*BibVar` points to a
struct that is never mutated after creation (`AddStringVar` always
installs a fresh struct), so plain value semantics is faithful. -/
inductive BibString where
  | constValue (s : String)
  | const (s : String)
  | var (key : String) (value : BibString)
  | composite (parts : List BibString)

/-- Go `NewBibConst`: converts a string to `BibConst` — the VALUE type,
not a pointer; this is the package's only constant constructor. -/
def NewBibConst (c : String) : BibString :=
  .constValue c

mutual

/-- Go method `String()` on `BibString`: the resolved / displayed text.
`BibConst.String` is the constant itself (for the value and the pointer
alike — an interface method call dispatches on both), `BibVar.String`
forwards to the bound value, `BibComposite.String` concatenates the
parts with no separator. -/
def BibString.resolve : BibString → String
  | .constValue s => s
  | .const s => s
  | .var _ v => BibString.resolve v
  | .composite ps => BibString.resolveList ps

/-- Concatenation loop of `BibComposite.String()`: a plain interface
call `s.String()` per element, no type switch, so nothing is dropped. -/
def BibString.resolveList : List BibString → String
  | [] => ""
  | p :: ps => BibString.resolve p ++ BibString.resolveList ps

end

mutual

/-- Go method `RawString()` on `BibString`, as reached by a direct
interface call (used for preambles and entry field values):
`BibConst.RawString` wraps the constant in braces — for the value and
the pointer receiver alike — `BibVar.RawString` is the bare key, and
`BibComposite.RawString` runs the separator loop over the parts. -/
def BibString.rawString : BibString → String
  | .constValue s => "\x7b" ++ s ++ "\x7d"
  | .const s => "\x7b" ++ s ++ "\x7d"
  | .var k _ => k
  | .composite ps => BibString.rawList ps

/-- The text the type switch inside `BibComposite.RawString()` writes
for one element: its cases are `*BibConst`, `*BibVar` and
`*BibComposite`, each writing the element's `RawString()`; an element
of the VALUE type `BibConst` (what `NewBibConst` returns) matches no
case, so NOTHING is written for it. -/
def BibString.rawSwitch : BibString → String
  | .constValue _ => ""
  | .const s => "\x7b" ++ s ++ "\x7d"
  | .var k _ => k
  | .composite ps => BibString.rawList ps

/-- First iteration of `BibComposite.RawString()`'s loop (index 0 writes
no separator, then the type switch's text). -/
def BibString.rawList : List BibString → String
  | [] => ""
  | p :: ps => BibString.rawSwitch p ++ BibString.rawTail ps

/-- Later iterations of `BibComposite.RawString()`'s loop (index &gt; 0
writes `" # "` unconditionally, then the type switch's text — the
separator is written even when the switch writes nothing). -/
def BibString.rawTail : List BibString → String
  | [] => ""
  | p :: ps => " # " ++ BibString.rawSwitch p ++ BibString.rawTail ps

end

/-- Go `BibComposite.Append`: returns a new composite with `s` appended
(persistent, non-mutating). -/
def BibComposite.Append (c : List BibString) (s : BibString) : List BibString :=
  c ++ [s]

/-- Go `NewBibComposite`: a fresh composite holding one element. -/
def NewBibComposite (s : BibString) : List BibString :=
  BibComposite.Append [] s

/-- Go struct `BibEntry`: entry type, cite name, and the field map
`map[string]BibString`.  The map is modelled as an association list with
unique keys; a `range` iteration over it is any permutation of this list. -/
@[ext] structure BibEntry where
  EntryType : String   -- Go field `Type` (a Lean keyword)
  CiteName : String
  Fields : List (String × BibString)

/-- Update of an association list at a key (Go map assignment). -/
def updateAssoc (m : List (String × BibString)) (key : String) (w : BibString) :
    List (String × BibString) :=
  match m with
  | [] => [(key, w)]
  | (k, v) :: rest =>
    if k == key then (key, w) :: rest else (k, v) :: updateAssoc rest key w

/-- Lookup in an association list (Go map read with `ok` flag). -/
def lookupAssoc (m : List (String × BibString)) (key : String) : Option BibString :=
  match m with
  | [] => none
  | (k, v) :: rest => if k == key then some v else lookupAssoc rest key

/-- Go `NewBibEntry`: lowercases the entry type, strips every space from
type and cite name, and starts with an empty field map.  Lean's
`String.toLower` lowercases ASCII letters only, whereas Go's
`strings.ToLower` is Unicode-aware; entry types are ASCII in the BibTeX
grammar and no theorem below depends on this lowering. -/
def NewBibEntry (entryType : String) (citeName : String) : BibEntry :=
  { EntryType := ((entryType.replace " " "").toLower)
    CiteName := citeName.replace " " ""
    Fields := [] }

/-- Go `BibEntry.AddField`: trims the field name and stores/overwrites it
in the field map. -/
def BibEntry.AddField (entry : BibEntry) (name : String) (value : BibString) : BibEntry :=
  { entry with Fields := updateAssoc entry.Fields (goTrimSpace name) value }

/-- Go struct `BibTex`: preambles, entries in insertion order, and the
string-variable map `map[string]*BibVar`.  Each stored value is the
`BibVar` struct `AddStringVar` created, i.e. a `BibString.var`. -/
structure BibTex where
  Preambles : List BibString
  Entries : List BibEntry
  StringVar : List (String × BibString)

/-- Go `NewBibTex`: empty bibliography. -/
def NewBibTex : BibTex :=
  { Preambles := [], Entries := [], StringVar := [] }

/-- Go `BibTex.AddPreamble`. -/
def BibTex.AddPreamble (bib : BibTex) (p : BibString) : BibTex :=
  { bib with Preambles := bib.Preambles ++ [p] }

/-- Go `BibTex.AddEntry`. -/
def BibTex.AddEntry (bib : BibTex) (entry : BibEntry) : BibTex :=
  { bib with Entries := bib.Entries ++ [entry] }

/-- Go `BibTex.AddStringVar`: `bib.StringVar[key] = &BibVar{Key: key,
Value: val}` — a FRESH `BibVar` struct is installed; an existing struct
is never mutated. -/
def BibTex.AddStringVar (bib : BibTex) (key : String) (val : BibString) : BibTex :=
  { bib with StringVar := updateAssoc bib.StringVar key (.var key val) }

/-- Go `BibTex.GetStringVar`: returns the stored `*BibVar` when the key
is present; otherwise `log.Fatalf` terminates the process, modelled as
`none` (the call never returns a value). -/
def BibTex.GetStringVar (bib : BibTex) (key : String) : Option BibString :=
  match lookupAssoc bib.StringVar key with
  | some bv => some bv
  | none => none

/-- One field line of `BibTex.String()`: integer-resolving fields are
written bare via `%d`, others brace-quoted with the resolved text
trimmed. -/
def fieldLineSimplified (kv : String × BibString) : String :=
  match atoi (goTrimSpace kv.2.resolve) with
  | some i => "  " ++ kv.1 ++ " = " ++ toString i ++ ",\n"
  | none => "  " ++ kv.1 ++ " = \x7b" ++ goTrimSpace kv.2.resolve ++ "\x7d,\n"

/-- Go `bytes.Buffer.Truncate(Len()-2)`: drop the final two bytes.  At
every call site the buffer ends with the ASCII bytes ",\n", so dropping
two characters is the same operation. -/
def truncate2 (s : String) : String :=
  String.mk s.data.dropLast.dropLast

/-- Body of the entry loop of `BibTex.String()`, acting on the output
buffer: header, field lines, truncate the trailing ",\n", close. -/
def simplEntryStep (buf : String) (v : BibEntry) : String :=
  truncate2 (v.Fields.foldl (fun b kv => b ++ fieldLineSimplified kv)
    (buf ++ "@" ++ v.EntryType ++ "\x7b" ++ v.CiteName ++ ",\n")) ++ "\n\x7d\n"

/-- Go `BibTex.String()` (the simplified renderer), applied to an entry
snapshot: the bibliography's entries in order, each with its field map
in the order the `range` loop happened to produce. -/
def stringSimplified (views : List BibEntry) : String :=
  views.foldl simplEntryStep ""

/-- One `@string` line of `BibTex.RawString()`: note the RESOLVED value
(`strvar.String()`) is embedded, not the raw one. -/
def stringVarLine (kv : String × BibString) : String :=
  "@string\x7b" ++ kv.1 ++ " = \x7b" ++ kv.2.resolve ++ "\x7d\x7d\n"

/-- One `@preamble` line of `BibTex.RawString()`: the preamble's raw
text. -/
def preambleLine (p : BibString) : String :=
  "@preamble\x7b" ++ p.rawString ++ "\x7d\n"

/-- One field line of `BibTex.RawString()`: integer-resolving fields
bare, others rendered with the value's `RawString()` (untrimmed). -/
def fieldLineRaw (kv : String × BibString) : String :=
  match atoi (goTrimSpace kv.2.resolve) with
  | some i => "  " ++ kv.1 ++ " = " ++ toString i ++ ",\n"
  | none => "  " ++ kv.1 ++ " = " ++ kv.2.rawString ++ ",\n"

/-- Body of the entry loop of `BibTex.RawString()`. -/
def rawEntryStep (buf : String) (v : BibEntry) : String :=
  truncate2 (v.Fields.foldl (fun b kv => b ++ fieldLineRaw kv)
    (buf ++ "@" ++ v.EntryType ++ "\x7b" ++ v.CiteName ++ ",\n")) ++ "\n\x7d\n"

/-- Go `BibTex.RawString()`: `@string` lines (variable map iterated in
the order `vars`), then `@preamble` lines in order, then the entries. -/
def stringRaw (vars : List (String × BibString)) (preambles : List BibString)
    (views : List BibEntry) : String :=
  views.foldl rawEntryStep
    (preambles.foldl (fun b p => b ++ preambleLine p)
      (vars.foldl (fun b kv => b ++ stringVarLine kv) ""))

/-- The `keylen` computation of `BibTex.PrettyString()`: length in bytes
(`len(key)`) of the longest field name. -/
def keyLen (fs : List (String × BibString)) : Nat :=
  fs.foldl (fun m kv => if kv.1.utf8ByteSize > m then kv.1.utf8ByteSize else m) 0

/-- Go `strings.Repeat(" ", n)`. -/
def goRepeatSpace (n : Nat) : String :=
  String.mk (List.replicate n ' ')

/-- Go `strings.ContainsAny(s, "\x7b\x22\x7d")` as used in
`PrettyString`: does the text contain a double quote or a brace? -/
def containsQuoteBrace (s : String) : Bool :=
  s.data.any (fun c => c == '"' || c == '{' || c == '}')

/-- One field line of `BibTex.PrettyString()`: name right-padded with
spaces to `keylen`; integer-resolving fields bare; otherwise the
resolved text (UNtrimmed) is brace-quoted when it contains one of
`"`, `{`, `}` (`strings.ContainsAny`), else double-quote-quoted. -/
def prettyFieldLine (keylen : Nat) (kv : String × BibString) : String :=
  let pad := goRepeatSpace (keylen - kv.1.utf8ByteSize)
  match atoi (goTrimSpace kv.2.resolve) with
  | some i => "  " ++ kv.1 ++ pad ++ " = " ++ toString i ++ ",\n"
  | none =>
    if containsQuoteBrace kv.2.resolve then
      "  " ++ kv.1 ++ pad ++ " = \x7b" ++ kv.2.resolve ++ "\x7d,\n"
    else
      "  " ++ kv.1 ++ pad ++ " = \"" ++ kv.2.resolve ++ "\",\n"

/-- Body of the entry loop of `BibTex.PrettyString()`: header, aligned
field lines (no truncation of the trailing comma), close. -/
def prettyEntryStep (buf : String) (v : BibEntry) : String :=
  v.Fields.foldl (fun b kv => b ++ prettyFieldLine (keyLen v.Fields) kv)
    (buf ++ "@" ++ v.EntryType ++ "\x7b" ++ v.CiteName ++ ",\n") ++ "\x7d\n"

/-- Go `BibTex.PrettyString()`, applied to an entry snapshot. -/
def stringPretty (views : List BibEntry) : String :=
  views.foldl prettyEntryStep ""

/-- An entry view is a legal `range` iteration of an entry's field map:
same type and cite name, fields in some permutation. -/
def EntryIter (e v : BibEntry) : Prop :=
  v.EntryType = e.EntryType ∧ v.CiteName = e.CiteName ∧ v.Fields.Perm e.Fields

/-- A bibliography snapshot: the entries in insertion order, each with a
legal field-map iteration. -/
def BibIter (bib : BibTex) (views : List BibEntry) : Prop :=
  List.Forall₂ EntryIter bib.Entries views

/-- Concatenation of the images of `f` with no separator. -/
def joinMap {α : Type} (f : α → String) : List α → String
  | [] => ""
  | x :: xs => f x ++ joinMap f xs

/-- Concatenation of the images of `f` with the separator `sep` between
consecutive elements (and no trailing separator). -/
def interMap {α : Type} (sep : String) (f : α → String) : List α → String
  | [] => ""
  | [x] => f x
  | x :: y :: xs => f x ++ sep ++ interMap sep f (y :: xs)

/-- The portion of an output line produced for one field by
`BibTex.String()` before its `",\n"` terminator. -/
def fieldEqSimplified (kv : String × BibString) : String :=
  match atoi (goTrimSpace kv.2.resolve) with
  | some i => "  " ++ kv.1 ++ " = " ++ toString i
  | none => "  " ++ kv.1 ++ " = \x7b" ++ goTrimSpace kv.2.resolve ++ "\x7d"

/-- The portion of an output line produced for one field by
`BibTex.RawString()` before its `",\n"` terminator. -/
def fieldEqRaw (kv : String × BibString) : String :=
  match atoi (goTrimSpace kv.2.resolve) with
  | some i => "  " ++ kv.1 ++ " = " ++ toString i
  | none => "  " ++ kv.1 ++ " = " ++ kv.2.rawString

/-- The text `BibTex.String()` contributes for a single entry. -/
def simplBlock (v : BibEntry) : String :=
  simplEntryStep "" v

/-- The text `BibTex.RawString()` contributes for a single entry. -/
def rawBlock (v : BibEntry) : String :=
  rawEntryStep "" v

/-- The text `BibTex.PrettyString()` contributes for a single entry. -/
def prettyBlock (v : BibEntry) : String :=
  prettyEntryStep "" v

/-- Modelled from the spec's words for the simplified renderer (the
refinement target of claim C5): a header line, one field line per
field joined by `",\n"` (so the last field carries no comma), then the
closing brace. -/
def specSimplifiedBlock (v : BibEntry) : String :=
  "@" ++ v.EntryType ++ "\x7b" ++ v.CiteName ++ ",\n" ++
    interMap ",\n" fieldEqSimplified v.Fields ++ "\n\x7d\n"

/-- Modelled from the spec's words for the raw renderer entry shape
(claim C8): same as `specSimplifiedBlock` with raw field values. -/
def specRawBlock (v : BibEntry) : String :=
  "@" ++ v.EntryType ++ "\x7b" ++ v.CiteName ++ ",\n" ++
    interMap ",\n" fieldEqRaw v.Fields ++ "\n\x7d\n"

theorem foldl_strAppend {α : Type} (f : α → String) :
    ∀ (xs : List α) (buf : String),
      xs.foldl (fun b x => b ++ f x) buf = buf ++ joinMap f xs
  | [], buf => by simp [joinMap, String.append_empty]
  | x :: xs, buf => by
    simp only [List.foldl, joinMap]
    rw [foldl_strAppend f xs (buf ++ f x), String.append_assoc]

theorem truncate2_concat (x : String) : truncate2 (x ++ ",\n") = x := by
  have h : (x ++ ",\n").data = (x.data ++ [',']) ++ ['\n'] := by
    rw [String.data_append]; simp
  unfold truncate2
  rw [h, List.dropLast_concat, List.dropLast_concat]

theorem fieldLineSimplified_eq (kv : String × BibString) :
    fieldLineSimplified kv = fieldEqSimplified kv ++ ",\n" := by
  unfold fieldLineSimplified fieldEqSimplified
  cases atoi (goTrimSpace kv.2.resolve) with
  | none =>
    conv_rhs => rw [String.append_assoc]
    rfl
  | some i => rfl

theorem fieldLineRaw_eq (kv : String × BibString) :
    fieldLineRaw kv = fieldEqRaw kv ++ ",\n" := by
  unfold fieldLineRaw fieldEqRaw
  cases atoi (goTrimSpace kv.2.resolve) with
  | none => rfl
  | some i => rfl

theorem endsCN_append (a : String) {b : String} (h : ∃ c, b = c ++ ",\n") :
    ∃ c, a ++ b = c ++ ",\n" := by
  obtain ⟨c, hc⟩ := h
  exact ⟨a ++ c, by rw [hc, String.append_assoc]⟩

theorem joinMap_endsCN {α : Type} (f : α → String)
    (hline : ∀ x, ∃ c, f x = c ++ ",\n") :
    ∀ (x : α) (xs : List α), ∃ c, joinMap f (x :: xs) = c ++ ",\n"
  | x, [] => by
    obtain ⟨c, hc⟩ := hline x
    exact ⟨c, by simp [joinMap, String.append_empty, hc]⟩
  | x, y :: ys => by
    obtain ⟨c, hc⟩ := joinMap_endsCN f hline y ys
    exact endsCN_append (f x) ⟨c, hc⟩

theorem header_join_endsCN {α : Type} (f : α → String)
    (hline : ∀ x, ∃ c, f x = c ++ ",\n") (T N : String) (fs : List α) :
    ∃ c, ("@" ++ T ++ "\x7b" ++ N ++ ",\n") ++ joinMap f fs = c ++ ",\n" := by
  cases fs with
  | nil => exact ⟨"@" ++ T ++ "\x7b" ++ N, String.append_empty _⟩
  | cons x xs => exact endsCN_append _ (joinMap_endsCN f hline x xs)

theorem entryStep_decomp {line : String × BibString → String}
    (hline : ∀ kv, ∃ c, line kv = c ++ ",\n") (buf : String) (v : BibEntry) :
    truncate2 (v.Fields.foldl (fun b kv => b ++ line kv)
        (buf ++ "@" ++ v.EntryType ++ "\x7b" ++ v.CiteName ++ ",\n")) ++ "\n\x7d\n"
      = buf ++ (truncate2 (v.Fields.foldl (fun b kv => b ++ line kv)
        ("" ++ "@" ++ v.EntryType ++ "\x7b" ++ v.CiteName ++ ",\n")) ++ "\n\x7d\n") := by
  obtain ⟨c, hc⟩ := header_join_endsCN line hline v.EntryType v.CiteName v.Fields
  rw [foldl_strAppend, foldl_strAppend]
  have h1 : (buf ++ "@" ++ v.EntryType ++ "\x7b" ++ v.CiteName ++ ",\n") ++
      joinMap line v.Fields = (buf ++ c) ++ ",\n" := by
    calc (buf ++ "@" ++ v.EntryType ++ "\x7b" ++ v.CiteName ++ ",\n") ++ joinMap line v.Fields
        = buf ++ (("@" ++ v.EntryType ++ "\x7b" ++ v.CiteName ++ ",\n") ++ joinMap line v.Fields) := by
          simp only [String.append_assoc]
      _ = buf ++ (c ++ ",\n") := by rw [hc]
      _ = (buf ++ c) ++ ",\n" := by rw [String.append_assoc]
  have h2 : ("" ++ "@" ++ v.EntryType ++ "\x7b" ++ v.CiteName ++ ",\n") ++
      joinMap line v.Fields = c ++ ",\n" := by
    calc ("" ++ "@" ++ v.EntryType ++ "\x7b" ++ v.CiteName ++ ",\n") ++ joinMap line v.Fields
        = ("@" ++ v.EntryType ++ "\x7b" ++ v.CiteName ++ ",\n") ++ joinMap line v.Fields := by
          simp only [String.empty_append, String.append_assoc]
      _ = c ++ ",\n" := hc
  rw [h1, h2, truncate2_concat, truncate2_concat, String.append_assoc]

theorem simplEntryStep_eq (buf : String) (v : BibEntry) :
    simplEntryStep buf v = buf ++ simplBlock v :=
  entryStep_decomp (fun kv => ⟨fieldEqSimplified kv, fieldLineSimplified_eq kv⟩) buf v

theorem rawEntryStep_eq (buf : String) (v : BibEntry) :
    rawEntryStep buf v = buf ++ rawBlock v :=
  entryStep_decomp (fun kv => ⟨fieldEqRaw kv, fieldLineRaw_eq kv⟩) buf v

theorem prettyEntryStep_eq (buf : String) (v : BibEntry) :
    prettyEntryStep buf v = buf ++ prettyBlock v := by
  unfold prettyEntryStep prettyBlock prettyEntryStep
  rw [foldl_strAppend, foldl_strAppend]
  simp only [String.empty_append, String.append_assoc]

theorem foldl_entryStep {step : String → BibEntry → String}
    (hstep : ∀ buf v, step buf v = buf ++ step "" v) :
    ∀ (views : List BibEntry) (buf : String),
      views.foldl step buf = buf ++ views.foldl step ""
  | [], buf => (String.append_empty buf).symm
  | v :: vs, buf => by
    simp only [List.foldl]
    rw [foldl_entryStep hstep vs (step buf v), foldl_entryStep hstep vs (step "" v),
      hstep buf v, String.append_assoc]

theorem stringSimplified_cons (v : BibEntry) (vs : List BibEntry) :
    stringSimplified (v :: vs) = simplBlock v ++ stringSimplified vs := by
  unfold stringSimplified
  simp only [List.foldl]
  rw [foldl_entryStep simplEntryStep_eq vs (simplEntryStep "" v), simplEntryStep_eq "" v,
    String.empty_append]

theorem stringSimplified_joinMap :
    ∀ vs : List BibEntry, stringSimplified vs = joinMap simplBlock vs
  | [] => rfl
  | v :: vs => by
    rw [stringSimplified_cons, stringSimplified_joinMap vs]; rfl

theorem stringPretty_cons (v : BibEntry) (vs : List BibEntry) :
    stringPretty (v :: vs) = prettyBlock v ++ stringPretty vs := by
  unfold stringPretty
  simp only [List.foldl]
  rw [foldl_entryStep prettyEntryStep_eq vs (prettyEntryStep "" v), prettyEntryStep_eq "" v,
    String.empty_append]

theorem stringPretty_joinMap :
    ∀ vs : List BibEntry, stringPretty vs = joinMap prettyBlock vs
  | [] => rfl
  | v :: vs => by
    rw [stringPretty_cons, stringPretty_joinMap vs]; rfl

theorem stringRaw_decomp (vars : List (String × BibString)) (preambles : List BibString)
    (views : List BibEntry) :
    stringRaw vars preambles views =
      joinMap stringVarLine vars ++ joinMap preambleLine preambles ++ joinMap rawBlock views := by
  unfold stringRaw
  rw [foldl_strAppend, foldl_strAppend, foldl_entryStep rawEntryStep_eq]
  have : (views.foldl rawEntryStep "" : String) = joinMap rawBlock views := by
    induction views with
    | nil => rfl
    | cons v vs ih =>
      simp only [List.foldl]
      rw [foldl_entryStep rawEntryStep_eq vs (rawEntryStep "" v), rawEntryStep_eq "" v,
        String.empty_append, ih]
      rfl
  rw [this]
  simp only [String.empty_append, String.append_assoc]

theorem resolveList_joinMap :
    ∀ ps : List BibString, BibString.resolveList ps = joinMap BibString.resolve ps
  | [] => rfl
  | p :: ps => by
    rw [BibString.resolveList, resolveList_joinMap ps]; rfl

theorem rawTail_cons (q : BibString) (qs : List BibString) :
    BibString.rawTail (q :: qs) = " # " ++ BibString.rawList (q :: qs) := by
  rw [BibString.rawTail, BibString.rawList, String.append_assoc]

theorem rawList_interMap :
    ∀ ps : List BibString, BibString.rawList ps = interMap " # " BibString.rawSwitch ps
  | [] => rfl
  | [p] => by
    rw [BibString.rawList, BibString.rawTail, String.append_empty]; rfl
  | p :: q :: qs => by
    rw [BibString.rawList, rawTail_cons, rawList_interMap (q :: qs)]
    show _ = BibString.rawSwitch p ++ " # " ++ interMap " # " BibString.rawSwitch (q :: qs)
    rw [String.append_assoc]

theorem foldl_Append (vs : List BibString) :
    vs.foldl BibComposite.Append [] = vs := by
  have h : ∀ (l : List BibString) (acc : List BibString),
      l.foldl BibComposite.Append acc = acc ++ l := by
    intro l
    induction l with
    | nil => intro acc; simp
    | cons x xs ih =>
      intro acc
      simp only [List.foldl]
      rw [ih (BibComposite.Append acc x)]
      simp [BibComposite.Append]
  simpa using h vs []

theorem lookup_updateAssoc (m : List (String × BibString)) (k : String) (w : BibString) :
    lookupAssoc (updateAssoc m k w) k = some w := by
  induction m with
  | nil => simp [updateAssoc, lookupAssoc]
  | cons kv rest ih =>
    obtain ⟨k', v⟩ := kv
    by_cases h : k' == k
    · simp [updateAssoc, lookupAssoc, h]
    · simp only [updateAssoc, h, if_false, Bool.false_eq_true]
      simp only [lookupAssoc, h, if_false, Bool.false_eq_true]
      exact ih

theorem utf8Go_append :
    ∀ l1 l2 : List Char,
      String.utf8ByteSize.go (l1 ++ l2) = String.utf8ByteSize.go l1 + String.utf8ByteSize.go l2
  | [], l2 => by simp [String.utf8ByteSize.go]
  | c :: cs, l2 => by
    have ih := utf8Go_append cs l2
    have h2 : String.utf8ByteSize.go (c :: cs) = String.utf8ByteSize.go cs + c.utf8Size := rfl
    show String.utf8ByteSize.go (cs ++ l2) + c.utf8Size = _
    rw [ih, h2]
    omega

theorem utf8ByteSize_append (a b : String) :
    (a ++ b).utf8ByteSize = a.utf8ByteSize + b.utf8ByteSize := by
  obtain ⟨l1⟩ := a
  obtain ⟨l2⟩ := b
  show String.utf8ByteSize.go (l1 ++ l2) = _
  rw [utf8Go_append]
  rfl

theorem goRepeatSpace_size : ∀ n : Nat, (goRepeatSpace n).utf8ByteSize = n
  | 0 => rfl
  | n + 1 => by
    show String.utf8ByteSize.go (List.replicate (n + 1) ' ') = n + 1
    rw [List.replicate_succ]
    simp only [String.utf8ByteSize.go]
    have := goRepeatSpace_size n
    simp only [goRepeatSpace] at this
    rw [show String.utf8ByteSize.go (List.replicate n ' ') = n from this]
    have hs : (' ').utf8Size = 1 := rfl
    rw [hs]

theorem padded_size (k : String) (kl : Nat) (h : k.utf8ByteSize ≤ kl) :
    (k ++ goRepeatSpace (kl - k.utf8ByteSize)).utf8ByteSize = kl := by
  rw [utf8ByteSize_append, goRepeatSpace_size]
  omega

theorem le_foldl_keyLen :
    ∀ (fs : List (String × BibString)) (m : Nat),
      m ≤ fs.foldl (fun m kv => if kv.1.utf8ByteSize > m then kv.1.utf8ByteSize else m) m
  | [], m => Nat.le_refl m
  | kv :: fs, m => by
    simp only [List.foldl]
    have h1 : m ≤ (if kv.1.utf8ByteSize > m then kv.1.utf8ByteSize else m) := by
      split <;> omega
    exact Nat.le_trans h1 (le_foldl_keyLen fs _)

theorem foldl_keyLen_mono :
    ∀ (fs : List (String × BibString)) (m m' : Nat), m ≤ m' →
      fs.foldl (fun m kv => if kv.1.utf8ByteSize > m then kv.1.utf8ByteSize else m) m ≤
      fs.foldl (fun m kv => if kv.1.utf8ByteSize > m then kv.1.utf8ByteSize else m) m'
  | [], m, m', h => h
  | kv :: fs, m, m', h => by
    simp only [List.foldl]
    apply foldl_keyLen_mono fs
    split <;> split <;> omega

theorem mem_le_keyLen {kv : String × BibString} :
    ∀ fs : List (String × BibString), kv ∈ fs → kv.1.utf8ByteSize ≤ keyLen fs := by
  intro fs hmem
  unfold keyLen
  induction fs with
  | nil => cases hmem
  | cons x xs ih =>
    rcases List.mem_cons.mp hmem with h | h
    · subst h
      simp only [List.foldl]
      have h1 : kv.1.utf8ByteSize ≤ (if kv.1.utf8ByteSize > 0 then kv.1.utf8ByteSize else 0) := by
        split <;> omega
      exact Nat.le_trans h1 (le_foldl_keyLen xs _)
    · have := ih h
      simp only [List.foldl] at this ⊢
      refine Nat.le_trans this (foldl_keyLen_mono xs _ _ ?_)
      split <;> omega

theorem keyLen_perm {fs fs' : List (String × BibString)} (h : fs.Perm fs') :
    keyLen fs = keyLen fs' := by
  unfold keyLen
  have hmax : (fun (m : Nat) (kv : String × BibString) =>
      if kv.1.utf8ByteSize > m then kv.1.utf8ByteSize else m) =
      fun m kv => max m kv.1.utf8ByteSize := by
    funext m kv
    rcases Nat.lt_or_ge m kv.1.utf8ByteSize with hlt | hge
    · rw [if_pos hlt, Nat.max_eq_right (Nat.le_of_lt hlt)]
    · rw [if_neg (by omega), Nat.max_eq_left hge]
  rw [hmax]
  exact h.foldl_eq' (fun a _ b _ m => by omega) 0

theorem perm_eq_of_short {α : Type} {l l' : List α}
    (h : l.Perm l') (hlen : l'.length ≤ 1) : l = l' := by
  match l', hlen with
  | [], _ => exact List.perm_nil.mp h
  | [a], _ => exact List.perm_singleton.mp h

theorem forall2_iter_eq :
    ∀ {es vs vs' : List BibEntry},
      List.Forall₂ EntryIter es vs → List.Forall₂ EntryIter es vs' →
      (∀ e ∈ es, e.Fields.length ≤ 1) → vs = vs' := by
  intro es vs vs' h1 h2 hf
  induction h1 generalizing vs' with
  | nil => cases h2; rfl
  | @cons e v es vs hev hrest ih =>
    cases h2 with
    | cons hev' hrest' =>
      congr 1
      · obtain ⟨hT, hN, hP⟩ := hev
        obtain ⟨hT', hN', hP'⟩ := hev'
        have hfe := hf e (List.mem_cons_self e es)
        have hFields : v.Fields = e.Fields := perm_eq_of_short hP hfe
        have hFields' := perm_eq_of_short hP' hfe
        ext : 1
        · rw [hT, hT']
        · rw [hN, hN']
        · rw [hFields, hFields']
      · exact ih hrest' (fun e' he' => hf e' (List.mem_cons_of_mem e he'))

theorem fieldLineSimplified_int (kv : String × BibString) (i : Int)
    (h : atoi (goTrimSpace kv.2.resolve) = some i) :
    fieldLineSimplified kv = "  " ++ kv.1 ++ " = " ++ toString i ++ ",\n" := by
  unfold fieldLineSimplified
  rw [h]

theorem fieldLineSimplified_none (kv : String × BibString)
    (h : atoi (goTrimSpace kv.2.resolve) = none) :
    fieldLineSimplified kv = "  " ++ kv.1 ++ " = \x7b" ++ goTrimSpace kv.2.resolve ++ "\x7d,\n" := by
  unfold fieldLineSimplified
  rw [h]

theorem fieldLineRaw_int (kv : String × BibString) (i : Int)
    (h : atoi (goTrimSpace kv.2.resolve) = some i) :
    fieldLineRaw kv = "  " ++ kv.1 ++ " = " ++ toString i ++ ",\n" := by
  unfold fieldLineRaw
  rw [h]

theorem fieldLineRaw_none (kv : String × BibString)
    (h : atoi (goTrimSpace kv.2.resolve) = none) :
    fieldLineRaw kv = "  " ++ kv.1 ++ " = " ++ kv.2.rawString ++ ",\n" := by
  unfold fieldLineRaw
  rw [h]

theorem fieldEqRaw_int (kv : String × BibString) (i : Int)
    (h : atoi (goTrimSpace kv.2.resolve) = some i) :
    fieldEqRaw kv = "  " ++ kv.1 ++ " = " ++ toString i := by
  unfold fieldEqRaw
  rw [h]

theorem fieldEqRaw_none (kv : String × BibString)
    (h : atoi (goTrimSpace kv.2.resolve) = none) :
    fieldEqRaw kv = "  " ++ kv.1 ++ " = " ++ kv.2.rawString := by
  unfold fieldEqRaw
  rw [h]

theorem prettyFieldLine_int (kl : Nat) (kv : String × BibString) (i : Int)
    (h : atoi (goTrimSpace kv.2.resolve) = some i) :
    prettyFieldLine kl kv =
      "  " ++ kv.1 ++ goRepeatSpace (kl - kv.1.utf8ByteSize) ++ " = " ++ toString i ++ ",\n" := by
  unfold prettyFieldLine
  rw [h]

theorem prettyFieldLine_brace (kl : Nat) (kv : String × BibString)
    (h : atoi (goTrimSpace kv.2.resolve) = none)
    (hc : containsQuoteBrace kv.2.resolve = true) :
    prettyFieldLine kl kv =
      "  " ++ kv.1 ++ goRepeatSpace (kl - kv.1.utf8ByteSize) ++ " = \x7b" ++ kv.2.resolve ++ "\x7d,\n" := by
  unfold prettyFieldLine
  rw [h]
  simp only [hc, if_true]

theorem prettyFieldLine_quote (kl : Nat) (kv : String × BibString)
    (h : atoi (goTrimSpace kv.2.resolve) = none)
    (hc : containsQuoteBrace kv.2.resolve = false) :
    prettyFieldLine kl kv =
      "  " ++ kv.1 ++ goRepeatSpace (kl - kv.1.utf8ByteSize) ++ " = \"" ++ kv.2.resolve ++ "\",\n" := by
  unfold prettyFieldLine
  rw [h]
  simp only [hc, Bool.false_eq_true, if_false]

theorem joinMap_interMap {α : Type} (line eqp : α → String)
    (hle : ∀ x, line x = eqp x ++ ",\n") :
    ∀ (x : α) (xs : List α),
      joinMap line (x :: xs) = interMap ",\n" eqp (x :: xs) ++ ",\n"
  | x, [] => by
    rw [joinMap, joinMap, String.append_empty, hle]
    rfl
  | x, y :: ys => by
    rw [joinMap, joinMap_interMap line eqp hle y ys, hle]
    show _ = (eqp x ++ ",\n" ++ interMap ",\n" eqp (y :: ys)) ++ ",\n"
    simp only [String.append_assoc]

theorem truncBlock_spec {line eqp : String × BibString → String}
    (hle : ∀ kv, line kv = eqp kv ++ ",\n") (v : BibEntry) (h : v.Fields ≠ []) :
    truncate2 (v.Fields.foldl (fun b kv => b ++ line kv)
        ("" ++ "@" ++ v.EntryType ++ "\x7b" ++ v.CiteName ++ ",\n")) ++ "\n\x7d\n"
      = "@" ++ v.EntryType ++ "\x7b" ++ v.CiteName ++ ",\n" ++
          interMap ",\n" eqp v.Fields ++ "\n\x7d\n" := by
  obtain ⟨f, fs, hv⟩ := List.exists_cons_of_ne_nil h
  rw [foldl_strAppend, hv, joinMap_interMap line eqp hle f fs]
  have h1 : ("" ++ "@" ++ v.EntryType ++ "\x7b" ++ v.CiteName ++ ",\n") ++
      (interMap ",\n" eqp (f :: fs) ++ ",\n") =
      ("@" ++ v.EntryType ++ "\x7b" ++ v.CiteName ++ ",\n" ++
        interMap ",\n" eqp (f :: fs)) ++ ",\n" := by
    simp only [String.empty_append, String.append_assoc]
  rw [h1, truncate2_concat]

theorem getStringVar_addStringVar (bib : BibTex) (key : String) (val : BibString) :
    (bib.AddStringVar key val).GetStringVar key = some (.var key val) := by
  unfold BibTex.GetStringVar BibTex.AddStringVar
  rw [lookup_updateAssoc]

theorem prettyBlock_decomp (v : BibEntry) :
    prettyBlock v = "@" ++ v.EntryType ++ "\x7b" ++ v.CiteName ++ ",\n" ++
      joinMap (prettyFieldLine (keyLen v.Fields)) v.Fields ++ "\x7d\n" := by
  unfold prettyBlock prettyEntryStep
  rw [foldl_strAppend]
  simp only [String.empty_append, String.append_assoc]

/-- C1 counterexample: building the scenario composite with the
package's own constant constructor — `NewBibComposite(GetStringVar's
BibVar).Append(NewBibConst("-supplement"))` — `RawString()` yields
`"month # "`, not the claimed `"month # \x7b-supplement\x7d"`: the type
switch in `BibComposite.RawString` has no case for the value type
`BibConst` that `NewBibConst` returns, so it writes the separator but
drops the constant's text (`Resolve` still yields `"jan-supplement"` as
claimed, since `String()` uses a plain interface call). -/
theorem claim1_counterexample :
    BibString.rawString (.composite
        (BibComposite.Append (NewBibComposite (.var "month" (.const "jan")))
          (NewBibConst "-supplement"))) =
      BibString.rawString (.composite [.var "month" (.const "jan"), NewBibConst "-supplement"]) ∧
    BibString.rawString (.composite [.var "month" (.const "jan"), NewBibConst "-supplement"]) =
      "month # " ∧
    BibString.resolve (.composite [.var "month" (.const "jan"), NewBibConst "-supplement"]) =
      "jan-supplement" ∧
    ("month # " : String) ≠ "month # \x7b-supplement\x7d" :=
  ⟨rfl, rfl, rfl, by decide⟩

/-- C1 amended: the resolved form of a composite built by appending
elements in order is always the concatenation of the elements' resolved
forms with no separator; its raw form joins, with the token `" # "`,
the per-element texts of `BibComposite.RawString`'s type switch:
pointer constants (`*BibConst`), variable references and nested
composites contribute their raw form, while a value-typed `BibConst` —
what `NewBibConst` returns — contributes EMPTY text (its separator is
still written).  The scenario composite yields the claimed
`"month # \x7b-supplement\x7d"` when the constant is a `*BibConst`, but
`"month # "` when it is built with `NewBibConst`. -/
theorem claim1_composite_forms :
    (∀ vs : List BibString,
      BibString.resolve (.composite (vs.foldl BibComposite.Append [])) =
        joinMap BibString.resolve vs ∧
      BibString.rawString (.composite (vs.foldl BibComposite.Append [])) =
        interMap " # " BibString.rawSwitch vs) ∧
    (∀ s : String, BibString.rawSwitch (NewBibConst s) = "") ∧
    (∀ s : String, BibString.rawSwitch (.const s) = "\x7b" ++ s ++ "\x7d") ∧
    (∀ (k : String) (w : BibString), BibString.rawSwitch (.var k w) = k) ∧
    (∀ ps : List BibString,
      BibString.rawSwitch (.composite ps) = BibString.rawString (.composite ps)) ∧
    (∀ s : String, BibString.rawString (NewBibConst s) = "\x7b" ++ s ++ "\x7d") ∧
    BibString.resolve (.composite [.var "month" (.const "jan"), .const "-supplement"]) =
      "jan-supplement" ∧
    BibString.rawString (.composite [.var "month" (.const "jan"), .const "-supplement"]) =
      "month # \x7b-supplement\x7d" ∧
    BibString.resolve (.composite [.var "month" (.const "jan"), NewBibConst "-supplement"]) =
      "jan-supplement" ∧
    BibString.rawString (.composite [.var "month" (.const "jan"), NewBibConst "-supplement"]) =
      "month # " := by
  refine ⟨fun vs => ?_, fun s => rfl, fun s => rfl, fun k w => rfl, fun ps => rfl,
    fun s => rfl, rfl, rfl, rfl, rfl⟩
  rw [foldl_Append]
  constructor
  · show BibString.resolveList vs = joinMap BibString.resolve vs
    exact resolveList_joinMap vs
  · show BibString.rawList vs = interMap " # " BibString.rawSwitch vs
    exact rawList_interMap vs

/-- C3 counterexample: after redefining variable `month` from
`Constant("jan")` to `Constant("feb")`, the `*BibVar` reference obtained
from `GetStringVar` BEFORE the redefinition still resolves to `"jan"`
(the old `BibVar` struct is immutable and `AddStringVar` installs a
fresh one), while a fresh lookup resolves to `"feb"`; so resolution of a
reference obtained before the redefinition does NOT reflect the current
binding, contrary to the claim. -/
theorem claim3_counterexample :
    ((NewBibTex.AddStringVar "month" (.const "jan")).GetStringVar "month").map
        BibString.resolve = some "jan" ∧
    (((NewBibTex.AddStringVar "month" (.const "jan")).AddStringVar "month"
        (.const "feb")).GetStringVar "month").map BibString.resolve = some "feb" ∧
    (some "jan" : Option String) ≠ some "feb" :=
  ⟨rfl, rfl, by decide⟩

/-- C3 amended: redefining a bound key replaces the table binding with a
fresh `BibVar` (last-write-wins, no error), and lookups performed AFTER
the redefinition return the new binding; but a reference obtained before
the redefinition keeps the previously bound value — the old `BibVar`
struct is never mutated, so it still resolves to the old value. -/
theorem claim3_amended (bib : BibTex) (k : String) (v1 v2 : BibString) :
    (bib.AddStringVar k v1).GetStringVar k = some (.var k v1) ∧
    ((bib.AddStringVar k v1).AddStringVar k v2).GetStringVar k = some (.var k v2) ∧
    BibString.resolve (.var k v1) = v1.resolve ∧
    BibString.resolve (.var k v2) = v2.resolve :=
  ⟨getStringVar_addStringVar bib k v1,
   getStringVar_addStringVar (bib.AddStringVar k v1) k v2, rfl, rfl⟩

/-- C4: `GetStringVar` returns the stored variable definition when the
key is present in the table, and when the key is absent the Go code runs
`log.Fatalf` — the process terminates and the call never returns a
value, modelled as the `none` outcome. -/
theorem claim4_getStringVar (bib : BibTex) (key : String) :
    (∀ bv, lookupAssoc bib.StringVar key = some bv → bib.GetStringVar key = some bv) ∧
    (lookupAssoc bib.StringVar key = none → bib.GetStringVar key = none) ∧
    (∀ val, (bib.AddStringVar key val).GetStringVar key = some (.var key val)) ∧
    NewBibTex.GetStringVar key = none := by
  refine ⟨?_, ?_, fun val => getStringVar_addStringVar bib key val, rfl⟩
  · intro bv h
    unfold BibTex.GetStringVar
    rw [h]
  · intro h
    unfold BibTex.GetStringVar
    rw [h]

/-- Witness for C4 at concrete inputs: a present key returns its stored
definition, an absent key hits the fatal path. -/
theorem claim4_witness :
    (NewBibTex.AddStringVar "m" (.const "jan")).GetStringVar "m" =
      some (.var "m" (.const "jan")) ∧
    NewBibTex.GetStringVar "m" = none :=
  ⟨(claim4_getStringVar NewBibTex "m").2.2.1 (.const "jan"),
   (claim4_getStringVar NewBibTex "m").2.1 rfl⟩

/-- C2 counterexample: for one unmutated bibliography with a two-field
entry, two legal `range` iteration orders of the field map (Go
randomizes map iteration per loop) are both valid render executions of
`BibTex.String()`, yet they produce different bytes; so the renderer is
not a deterministic function of the bibliography's state alone. -/
theorem claim2_counterexample :
    BibIter ⟨[], [⟨"misc", "k", [("a", .const "x"), ("b", .const "y")]⟩], []⟩
      [⟨"misc", "k", [("a", .const "x"), ("b", .const "y")]⟩] ∧
    BibIter ⟨[], [⟨"misc", "k", [("a", .const "x"), ("b", .const "y")]⟩], []⟩
      [⟨"misc", "k", [("b", .const "y"), ("a", .const "x")]⟩] ∧
    stringSimplified [⟨"misc", "k", [("a", .const "x"), ("b", .const "y")]⟩] ≠
      stringSimplified [⟨"misc", "k", [("b", .const "y"), ("a", .const "x")]⟩] := by
  refine ⟨?_, ?_, ?_⟩
  · exact List.Forall₂.cons ⟨rfl, rfl, List.Perm.refl _⟩ List.Forall₂.nil
  · exact List.Forall₂.cons ⟨rfl, rfl, List.Perm.swap _ _ _⟩ List.Forall₂.nil
  · decide

/-- C2 amended: each renderer is a deterministic function of the
bibliography's state TOGETHER WITH the iteration orders of its field
maps (and, for the raw renderer, of the variable table); in particular
when every entry has at most one field (and the variable table at most
one binding) any two render executions yield byte-identical output. -/
theorem claim2_amended (bib : BibTex) (vs vs' : List BibEntry)
    (svs svs' : List (String × BibString))
    (h1 : BibIter bib vs) (h2 : BibIter bib vs')
    (hf : ∀ e ∈ bib.Entries, e.Fields.length ≤ 1) :
    stringSimplified vs = stringSimplified vs' ∧
    stringPretty vs = stringPretty vs' ∧
    (svs.Perm bib.StringVar → svs'.Perm bib.StringVar → bib.StringVar.length ≤ 1 →
      stringRaw svs bib.Preambles vs = stringRaw svs' bib.Preambles vs') := by
  have hvv : vs = vs' := forall2_iter_eq h1 h2 hf
  subst hvv
  refine ⟨rfl, rfl, fun hp hp' hlen => ?_⟩
  have hss : svs = svs' := by
    rw [perm_eq_of_short hp hlen, perm_eq_of_short hp' hlen]
  rw [hss]

/-- Witness for the amended C2 at a concrete one-field, one-variable
bibliography. -/
theorem claim2_amended_witness :
    stringSimplified [⟨"article", "doe2020", [("title", BibString.const "Hello")]⟩] =
      stringSimplified [⟨"article", "doe2020", [("title", BibString.const "Hello")]⟩] ∧
    stringRaw [("m", BibString.var "m" (.const "jan"))] []
        [⟨"article", "doe2020", [("title", BibString.const "Hello")]⟩] =
      stringRaw [("m", BibString.var "m" (.const "jan"))] []
        [⟨"article", "doe2020", [("title", BibString.const "Hello")]⟩] :=
  have h := claim2_amended
    ⟨[], [⟨"article", "doe2020", [("title", BibString.const "Hello")]⟩],
      [("m", BibString.var "m" (.const "jan"))]⟩
    [⟨"article", "doe2020", [("title", BibString.const "Hello")]⟩]
    [⟨"article", "doe2020", [("title", BibString.const "Hello")]⟩]
    [("m", BibString.var "m" (.const "jan"))]
    [("m", BibString.var "m" (.const "jan"))]
    (List.Forall₂.cons ⟨rfl, rfl, List.Perm.refl _⟩ List.Forall₂.nil)
    (List.Forall₂.cons ⟨rfl, rfl, List.Perm.refl _⟩ List.Forall₂.nil)
    (by intro e he; cases he with
        | head => exact Nat.le_refl 1
        | tail _ h => cases h)
  ⟨h.1, h.2.2 (List.Perm.refl _) (List.Perm.refl _) (Nat.le_refl 1)⟩

/-- C5 counterexample: an entry with NO fields is rendered by
`BibTex.String()` as `@article{empty\n}\n` — the `Truncate` call eats
the header line's own trailing comma, so the output does not contain
the claimed header line `@article{empty,`: in fact it contains no comma
at all. -/
theorem claim5_counterexample :
    stringSimplified [⟨"article", "empty", []⟩] = "@article\x7bempty\n\x7d\n" ∧
    ',' ∉ (stringSimplified [⟨"article", "empty", []⟩]).data :=
  ⟨rfl, by decide⟩

/-- C5 amended: for each entry WITH at least one field, the simplified
renderer emits the header line `@type{citekey,`, one `  name = value`
line per field with the trailing comma of the last field stripped, then
the closing brace; an entry with no fields instead loses the header's
own comma, yielding `@type{citekey\n}\n`; the concrete doe2020 scenario
renders exactly as the claim states. -/
theorem claim5_amended :
    (∀ v : BibEntry, v.Fields ≠ [] → simplBlock v = specSimplifiedBlock v) ∧
    (∀ v : BibEntry, v.Fields = [] →
      simplBlock v = "@" ++ v.EntryType ++ "\x7b" ++ v.CiteName ++ "\n\x7d\n") ∧
    stringSimplified [⟨"article", "doe2020", [("title", .const "Hello")]⟩] =
      "@article\x7bdoe2020,\n  title = \x7bHello\x7d\n\x7d\n" := by
  refine ⟨?_, ?_, rfl⟩
  · intro v h
    exact truncBlock_spec fieldLineSimplified_eq v h
  · intro v h
    unfold simplBlock simplEntryStep
    rw [h]
    show truncate2 (("" ++ "@" ++ v.EntryType ++ "\x7b" ++ v.CiteName) ++ ",\n") ++ "\n\x7d\n" = _
    rw [truncate2_concat]
    simp only [String.empty_append]

/-- Witness for the amended C5: the entry-block shape at a concrete
one-field entry and at a concrete zero-field entry. -/
theorem claim5_witness :
    simplBlock ⟨"article", "doe2020", [("title", BibString.const "Hello")]⟩ =
      specSimplifiedBlock ⟨"article", "doe2020", [("title", BibString.const "Hello")]⟩ ∧
    simplBlock ⟨"misc", "e", []⟩ = "@" ++ "misc" ++ "\x7b" ++ "e" ++ "\n\x7d\n" :=
  ⟨claim5_amended.1 ⟨"article", "doe2020", [("title", BibString.const "Hello")]⟩
      (by intro h; cases h),
   claim5_amended.2.1 ⟨"misc", "e", []⟩ rfl⟩

/-- C6 counterexample: a two-entry bibliography renders with one entry's
closing brace line immediately followed by the next entry's header
(`...}\n@misc{...`) — there is no blank line between entries, contrary
to the claim. -/
theorem claim6_counterexample :
    stringSimplified [⟨"misc", "a", [("x", .const "p")]⟩, ⟨"misc", "b", [("y", .const "q")]⟩] =
      "@misc\x7ba,\n  x = \x7bp\x7d\n\x7d\n@misc\x7bb,\n  y = \x7bq\x7d\n\x7d\n" ∧
    stringSimplified [⟨"misc", "a", [("x", .const "p")]⟩, ⟨"misc", "b", [("y", .const "q")]⟩] ≠
      "@misc\x7ba,\n  x = \x7bp\x7d\n\x7d\n\n@misc\x7bb,\n  y = \x7bq\x7d\n\x7d\n" :=
  ⟨rfl, by decide⟩

/-- C6 amended: `BibTex.String()` concatenates the per-entry blocks with
NO separator — consecutive entries are not separated by a blank line:
the closing brace line of one entry is immediately followed by the next
entry's `@` header, and the concrete two-entry output contains no blank
line (no two consecutive newlines) at all. -/
theorem claim6_amended :
    (∀ (v : BibEntry) (vs : List BibEntry),
      stringSimplified (v :: vs) = simplBlock v ++ stringSimplified vs) ∧
    (∀ vs : List BibEntry, stringSimplified vs = joinMap simplBlock vs) ∧
    ¬ List.IsInfix ['\n', '\n']
      (stringSimplified [⟨"misc", "a", [("x", .const "p")]⟩,
        ⟨"misc", "b", [("y", .const "q")]⟩]).data :=
  ⟨stringSimplified_cons, stringSimplified_joinMap, by decide⟩

/-- C7: in all three renderers a field whose resolved text, after
trimming surrounding whitespace, parses as a base-10 integer is emitted
unquoted as that integer; a field whose trimmed resolved text does not
so parse (e.g. "42a" or the all-whitespace "  ") is emitted as quoted
string text, and the failed parse never raises an error (the field-line
functions are total and fall through to the string branch). -/
theorem claim7_numeric_detection :
    (∀ (key : String) (val : BibString) (kl : Nat),
      (∀ i : Int, atoi (goTrimSpace val.resolve) = some i →
        fieldLineSimplified (key, val) = "  " ++ key ++ " = " ++ toString i ++ ",\n" ∧
        fieldLineRaw (key, val) = "  " ++ key ++ " = " ++ toString i ++ ",\n" ∧
        prettyFieldLine kl (key, val) =
          "  " ++ key ++ goRepeatSpace (kl - key.utf8ByteSize) ++ " = " ++
            toString i ++ ",\n") ∧
      (atoi (goTrimSpace val.resolve) = none →
        fieldLineSimplified (key, val) =
          "  " ++ key ++ " = \x7b" ++ goTrimSpace val.resolve ++ "\x7d,\n" ∧
        fieldLineRaw (key, val) = "  " ++ key ++ " = " ++ val.rawString ++ ",\n" ∧
        (prettyFieldLine kl (key, val) =
            "  " ++ key ++ goRepeatSpace (kl - key.utf8ByteSize) ++ " = \x7b" ++
              val.resolve ++ "\x7d,\n" ∨
         prettyFieldLine kl (key, val) =
            "  " ++ key ++ goRepeatSpace (kl - key.utf8ByteSize) ++ " = \"" ++
              val.resolve ++ "\",\n"))) ∧
    atoi (goTrimSpace "42") = some 42 ∧
    atoi (goTrimSpace "42a") = none ∧
    atoi (goTrimSpace "  ") = none := by
  refine ⟨fun key val kl => ⟨fun i h => ?_, fun h => ?_⟩, rfl, rfl, rfl⟩
  · exact ⟨fieldLineSimplified_int _ i h, fieldLineRaw_int _ i h,
      prettyFieldLine_int kl _ i h⟩
  · refine ⟨fieldLineSimplified_none _ h, fieldLineRaw_none _ h, ?_⟩
    cases hc : containsQuoteBrace val.resolve
    · exact Or.inr (prettyFieldLine_quote kl _ h hc)
    · exact Or.inl (prettyFieldLine_brace kl _ h hc)

/-- Witness for C7 at concrete fields: "42" renders bare, "42a" and "  "
render as quoted strings. -/
theorem claim7_witness :
    fieldLineSimplified ("year", BibString.const "42") = "  year = 42,\n" ∧
    fieldLineRaw ("note", BibString.const "42a") = "  note = \x7b42a\x7d,\n" ∧
    (prettyFieldLine 4 ("note", BibString.const "  ") = "  note = \x7b  \x7d,\n" ∨
     prettyFieldLine 4 ("note", BibString.const "  ") = "  note = \"  \",\n") :=
  have h := claim7_numeric_detection.1
  ⟨((h "year" (.const "42") 0).1 42 rfl).1,
   ((h "note" (.const "42a") 0).2 rfl).2.1,
   ((h "note" (.const "  ") 4).2 rfl).2.2⟩

/-- C8 counterexample: a raw render of an entry whose field holds a
composite containing a value-typed constant (`NewBibConst`'s result)
writes the separator but drops the constant's raw text — the field line
reads `  note = month # ` instead of the
`  note = month # \x7b-supplement\x7d` the claim's "composites joined
by \" # \"" characterization predicts. -/
theorem claim8_counterexample :
    stringRaw [] []
        [⟨"misc", "x", [("note",
          .composite [.var "month" (.const "jan"), NewBibConst "-supplement"])]⟩] =
      "@misc\x7bx,\n  note = month # \n\x7d\n" ∧
    ("@misc\x7bx,\n  note = month # \n\x7d\n" : String) ≠
      "@misc\x7bx,\n  note = month # \x7b-supplement\x7d\n\x7d\n" :=
  ⟨rfl, by decide⟩

/-- C8 amended: `BibTex.RawString()` emits, in order, one `@string`
line per variable definition (embedding the RESOLVED text of the bound
value), then one `@preamble` line per preamble (with the preamble's raw
text), then the entries in insertion order in the same truncated shape
as the simplified renderer, integer-resolving fields bare and the other
fields rendered with the value's `RawString()`: constants brace-quoted
(value and pointer alike at this top level), variable references as the
bare key, and composites joined by `" # "` over the per-element text of
the `RawString` type switch — pointer constants, variable references
and nested composites contribute their raw form, while a value-typed
`BibConst` (what `NewBibConst` returns) contributes empty text, its
separator still being written. -/
theorem claim8_rawRender (bib : BibTex) (svs : List (String × BibString))
    (views : List BibEntry) (_hs : svs.Perm bib.StringVar) (_hv : BibIter bib views) :
    stringRaw svs bib.Preambles views =
      joinMap stringVarLine svs ++ joinMap preambleLine bib.Preambles ++
        joinMap rawBlock views ∧
    (∀ kv : String × BibString,
      stringVarLine kv = "@string\x7b" ++ kv.1 ++ " = \x7b" ++ kv.2.resolve ++ "\x7d\x7d\n") ∧
    (∀ (k : String) (w : BibString), BibString.resolve (.var k w) = w.resolve) ∧
    (∀ p : BibString, preambleLine p = "@preamble\x7b" ++ p.rawString ++ "\x7d\n") ∧
    (∀ v : BibEntry, v.Fields ≠ [] → rawBlock v = specRawBlock v) ∧
    (∀ (kv : String × BibString) (i : Int), atoi (goTrimSpace kv.2.resolve) = some i →
      fieldEqRaw kv = "  " ++ kv.1 ++ " = " ++ toString i) ∧
    (∀ kv : String × BibString, atoi (goTrimSpace kv.2.resolve) = none →
      fieldEqRaw kv = "  " ++ kv.1 ++ " = " ++ kv.2.rawString) ∧
    (∀ s : String, BibString.rawString (.const s) = "\x7b" ++ s ++ "\x7d") ∧
    (∀ s : String, BibString.rawString (NewBibConst s) = "\x7b" ++ s ++ "\x7d") ∧
    (∀ (k : String) (w : BibString), BibString.rawString (.var k w) = k) ∧
    (∀ ps : List BibString,
      BibString.rawString (.composite ps) = interMap " # " BibString.rawSwitch ps) ∧
    (∀ s : String, BibString.rawSwitch (NewBibConst s) = "") ∧
    (∀ s : String, BibString.rawSwitch (.const s) = "\x7b" ++ s ++ "\x7d") ∧
    (∀ (k : String) (w : BibString), BibString.rawSwitch (.var k w) = k) ∧
    (∀ ps : List BibString,
      BibString.rawSwitch (.composite ps) = BibString.rawString (.composite ps)) := by
  refine ⟨stringRaw_decomp svs bib.Preambles views, fun kv => rfl, fun k w => rfl,
    fun p => rfl, fun v h => truncBlock_spec fieldLineRaw_eq v h,
    fun kv i h => fieldEqRaw_int kv i h, fun kv h => fieldEqRaw_none kv h,
    fun s => rfl, fun s => rfl, fun k w => rfl, fun ps => ?_, fun s => rfl,
    fun s => rfl, fun k w => rfl, fun ps => rfl⟩
  show BibString.rawList ps = _
  exact rawList_interMap ps

/-- Witness for C8 at the spec's scenario 2: variable `month` bound to
`Constant("jan")`, entry field `month` referencing it — the raw render
shows `@string{month = {jan}}` and the bare raw key `month` in the
field line. -/
theorem claim8_witness :
    stringRaw [("month", BibString.var "month" (.const "jan"))] []
        [⟨"misc", "x", [("month", BibString.var "month" (.const "jan"))]⟩] =
      joinMap stringVarLine [("month", BibString.var "month" (.const "jan"))] ++
        joinMap preambleLine [] ++
        joinMap rawBlock [⟨"misc", "x", [("month", BibString.var "month" (.const "jan"))]⟩] ∧
    stringRaw [("month", BibString.var "month" (.const "jan"))] []
        [⟨"misc", "x", [("month", BibString.var "month" (.const "jan"))]⟩] =
      "@string\x7bmonth = \x7bjan\x7d\x7d\n@misc\x7bx,\n  month = month\n\x7d\n" :=
  have h := claim8_rawRender
    ⟨[], [⟨"misc", "x", [("month", BibString.var "month" (.const "jan"))]⟩],
      [("month", BibString.var "month" (.const "jan"))]⟩
    [("month", BibString.var "month" (.const "jan"))]
    [⟨"misc", "x", [("month", BibString.var "month" (.const "jan"))]⟩]
    (List.Perm.refl _)
    (List.Forall₂.cons ⟨rfl, rfl, List.Perm.refl _⟩ List.Forall₂.nil)
  ⟨h.1, rfl⟩

/-- C9: in the pretty renderer every field name is right-padded with
spaces so the padded name's byte length equals the byte length of the
longest field name of that entry (aligning the `=` signs), and each
non-integer value is brace-quoted exactly when its resolved text
contains a double quote or a brace, double-quote-quoted otherwise;
integers stay unquoted. -/
theorem claim9_pretty_alignment (e v : BibEntry) (hiter : EntryIter e v) :
    prettyBlock v = "@" ++ v.EntryType ++ "\x7b" ++ v.CiteName ++ ",\n" ++
      joinMap (prettyFieldLine (keyLen v.Fields)) v.Fields ++ "\x7d\n" ∧
    keyLen v.Fields = keyLen e.Fields ∧
    ∀ kv ∈ v.Fields,
      (kv.1 ++ goRepeatSpace (keyLen v.Fields - kv.1.utf8ByteSize)).utf8ByteSize =
        keyLen v.Fields ∧
      (∀ i : Int, atoi (goTrimSpace kv.2.resolve) = some i →
        prettyFieldLine (keyLen v.Fields) kv = "  " ++ kv.1 ++
          goRepeatSpace (keyLen v.Fields - kv.1.utf8ByteSize) ++ " = " ++
            toString i ++ ",\n") ∧
      (atoi (goTrimSpace kv.2.resolve) = none →
        (containsQuoteBrace kv.2.resolve = true →
          prettyFieldLine (keyLen v.Fields) kv = "  " ++ kv.1 ++
            goRepeatSpace (keyLen v.Fields - kv.1.utf8ByteSize) ++ " = \x7b" ++
              kv.2.resolve ++ "\x7d,\n") ∧
        (containsQuoteBrace kv.2.resolve = false →
          prettyFieldLine (keyLen v.Fields) kv = "  " ++ kv.1 ++
            goRepeatSpace (keyLen v.Fields - kv.1.utf8ByteSize) ++ " = \"" ++
              kv.2.resolve ++ "\",\n")) := by
  refine ⟨prettyBlock_decomp v, keyLen_perm hiter.2.2, fun kv hmem => ?_⟩
  exact ⟨padded_size kv.1 _ (mem_le_keyLen v.Fields hmem),
    fun i h => prettyFieldLine_int _ kv i h,
    fun h => ⟨fun hc => prettyFieldLine_brace _ kv h hc,
      fun hc => prettyFieldLine_quote _ kv h hc⟩⟩

/-- Witness for C9 at a concrete two-field entry with names of byte
lengths 2 and 1: the padded names both reach the common column, the
brace-containing value is brace-quoted, the plain value double-quoted. -/
theorem claim9_witness :
    (("ab" : String) ++ goRepeatSpace
        (keyLen [("ab", BibString.const "1z"), ("c", BibString.const "\x7b")] -
          ("ab" : String).utf8ByteSize)).utf8ByteSize =
      keyLen [("ab", BibString.const "1z"), ("c", BibString.const "\x7b")] ∧
    prettyFieldLine (keyLen [("ab", BibString.const "1z"), ("c", BibString.const "\x7b")])
      ("c", BibString.const "\x7b") = "  c  = \x7b\x7b\x7d,\n" ∧
    prettyFieldLine (keyLen [("ab", BibString.const "1z"), ("c", BibString.const "\x7b")])
      ("ab", BibString.const "1z") = "  ab = \"1z\",\n" :=
  have h := claim9_pretty_alignment
    ⟨"misc", "x", [("ab", BibString.const "1z"), ("c", BibString.const "\x7b")]⟩
    ⟨"misc", "x", [("ab", BibString.const "1z"), ("c", BibString.const "\x7b")]⟩
    ⟨rfl, rfl, List.Perm.refl _⟩
  have h1 := h.2.2 ("ab", BibString.const "1z") (List.mem_cons_self _ _)
  have h2 := h.2.2 ("c", BibString.const "\x7b")
    (List.mem_cons_of_mem _ (List.mem_cons_self _ _))
  ⟨h1.1, (h2.2.2 rfl).1 rfl, (h1.2.2 rfl).2 rfl⟩

/-- C10 (implicit): for a non-integer field the simplified renderer
trims the resolved text before brace-quoting, while the pretty renderer
emits the resolved text untrimmed and applies its quoting test to the
untrimmed text; a field resolving to two spaces renders as `{}` in
Simplified but as `"  "` (spaces preserved) in Pretty. -/
theorem claim10_trim_divergence :
    (∀ (k : String) (val : BibString) (kl : Nat),
      atoi (goTrimSpace val.resolve) = none →
      fieldLineSimplified (k, val) =
        "  " ++ k ++ " = \x7b" ++ goTrimSpace val.resolve ++ "\x7d,\n" ∧
      (containsQuoteBrace val.resolve = true →
        prettyFieldLine kl (k, val) =
          "  " ++ k ++ goRepeatSpace (kl - k.utf8ByteSize) ++ " = \x7b" ++
            val.resolve ++ "\x7d,\n") ∧
      (containsQuoteBrace val.resolve = false →
        prettyFieldLine kl (k, val) =
          "  " ++ k ++ goRepeatSpace (kl - k.utf8ByteSize) ++ " = \"" ++
            val.resolve ++ "\",\n")) ∧
    stringSimplified [⟨"misc", "x", [("note", .const "  ")]⟩] =
      "@misc\x7bx,\n  note = \x7b\x7d\n\x7d\n" ∧
    stringPretty [⟨"misc", "x", [("note", .const "  ")]⟩] =
      "@misc\x7bx,\n  note = \"  \",\n\x7d\n" := by
  refine ⟨fun k val kl h => ⟨fieldLineSimplified_none _ h,
    fun hc => prettyFieldLine_brace kl _ h hc,
    fun hc => prettyFieldLine_quote kl _ h hc⟩, rfl, rfl⟩

/-- Witness for C10 at the two-space field. -/
theorem claim10_witness :
    fieldLineSimplified ("note", BibString.const "  ") = "  note = \x7b\x7d,\n" ∧
    prettyFieldLine 4 ("note", BibString.const "  ") = "  note = \"  \",\n" :=
  have h := claim10_trim_divergence.1 "note" (BibString.const "  ") 4 rfl
  ⟨h.1, h.2.2 rfl⟩

end Bibtex
